import Mathlib

/-!
Verification of the restaurant-recommender core (`app.py`):
the dataset loader `load_data` and the filter `recommend` of the
`RestaurantRecommender` class, shallowly embedded in Lean.

Modelling conventions:
* A Python/pandas string is a `List Char` (`PyStr`); `str.lower()` is
  per-character lowercasing.
* A pandas cell is `Cell`: `na` (NaN, which `read_csv` produces for empty
  or missing fields), a string, or a number.  Finite numbers are `Rat`
  (the claims never exercise float rounding; pandas ratings are
  decimals); the IEEE infinities are separate `inf` cells.
* A `DataFrame` (`Df`) records which of the three columns used by the code
  are present (`Cuisines`, `Aggregate rating`, `Votes`) plus its rows;
  other columns are passed through untouched and are not modelled.
* `Series.str.contains(pat, case=False, na=False)` is a regular-expression
  search (`re.search` with `re.IGNORECASE`).  The regex engine below
  implements the fragment of Python regex syntax that the analysed
  patterns exercise: literal characters, the `.` wildcard, `|`
  alternation and backslash escapes of punctuation.  Every other
  metacharacter (and alphanumeric escapes such as a digit class) is
  mapped to a parse failure; `re.compile` errors on such patterns are
  modelled by the same failure.  `case=False` is modelled by lowercasing
  the searched text (the pattern is already lowercased by the code).
* Exceptions are `Except String`; `sort_values` raising `KeyError` on a
  missing column is an error value, as is an invalid pattern.
* `sort_values(..., kind=quicksort)` fixes no order on ties; the model
  uses a stable sort by the same two-key descending comparator
  (`na_position=last` default: NaN keys go last).  Mixed string/number
  sort keys make pandas raise; the model orders cells by type rank and
  the claims about sorting restrict attention to numeric keys.
-/

/-- A Python string, modelled as its list of characters. -/
abbrev PyStr := List Char

/-- Python `str.lower()`, modelled as per-character (ASCII) lowercasing. -/
def pyLower (s : PyStr) : PyStr := s.map Char.toLower

/-- A pandas cell: NaN, a string value, or a numeric value.  Finite
numbers are `Rat`; the IEEE infinities, which the pipeline can produce
(`pd.to_numeric` parses "inf"/"Infinity" and overflowing literals to
float infinity, and `fillna(0)` keeps them since they are not NA), are
the distinguished cells `inf neg`. -/
inductive Cell
  | na
  | str (s : PyStr)
  | num (q : Rat)
  | inf (neg : Bool)
deriving DecidableEq, Repr

/-- One row of the table, restricted to the three columns the code reads. -/
structure Row where
  cuisines : Cell
  rating : Cell
  votes : Cell
deriving DecidableEq, Repr

/-- A DataFrame: presence flags for the three relevant columns, plus rows.
`pd.DataFrame()` (the loader's failure result) has no columns at all. -/
structure Df where
  hasCuisines : Bool
  hasRating : Bool
  hasVotes : Bool
  rows : List Row
deriving DecidableEq, Repr

/-- The empty frame `pd.DataFrame()` returned on a load error. -/
def emptyDf : Df := ⟨false, false, false, []⟩

/-- The `preferences` dict passed to `recommend`: each key is optional. -/
structure Prefs where
  cuisines : Option (List PyStr)
  min_rating : Option Rat
deriving DecidableEq, Repr

/-! ### The regex fragment used by `Series.str.contains` -/

/-- Regex metacharacters whose syntax the model does not implement
(`re.compile` gives them structural meaning or rejects the pattern);
a pattern containing one of them unescaped is mapped to a parse failure. -/
def metachar (c : Char) : Bool :=
  c = '(' || c = ')' || c = '[' || c = ']' || c = '\x7b' || c = '\x7d' ||
  c = '*' || c = '+' || c = '?' || c = '^' || c = '$'

/-- A lexed pattern token: alternation bar, wildcard dot, or a literal. -/
inductive Tok
  | bar
  | dot
  | lit (c : Char)
deriving DecidableEq, Repr

/-- Lex a pattern string: backslash escapes punctuation (alphanumeric
escapes such as character classes are outside the model and rejected, as
is a trailing backslash, which `re.compile` rejects too). -/
def lex : PyStr → Option (List Tok)
  | [] => some []
  | c :: rest =>
    if c = '\\' then
      match rest with
      | [] => none
      | d :: rest2 =>
        if d.isAlphanum then none
        else (lex rest2).map (fun ts => Tok.lit d :: ts)
    else if metachar c then none
    else
      (lex rest).map (fun ts =>
        (if c = '|' then Tok.bar else if c = '.' then Tok.dot else Tok.lit c) :: ts)

/-- Split a token list at the alternation bars. -/
def splitBar : List Tok → List (List Tok)
  | [] => [[]]
  | Tok.bar :: rest => [] :: splitBar rest
  | t :: rest =>
    match splitBar rest with
    | [] => [[t]]
    | seg :: segs => (t :: seg) :: segs

/-- Abstract syntax of the implemented regex fragment. -/
inductive Re
  | eps
  | ch (c : Char)
  | dot
  | alt (a b : Re)
  | seq (a b : Re)
deriving DecidableEq, Repr

/-- A bar-free token segment as a regex: the sequence of its atoms. -/
def seqOf : List Tok → Re
  | [] => Re.eps
  | Tok.bar :: ts => seqOf ts
  | Tok.dot :: ts => Re.seq Re.dot (seqOf ts)
  | Tok.lit c :: ts => Re.seq (Re.ch c) (seqOf ts)

/-- The alternation of the segments of a pattern. -/
def altOf : List (List Tok) → Re
  | [] => Re.eps
  | [seg] => seqOf seg
  | seg :: segs => Re.alt (seqOf seg) (altOf segs)

/-- `re.compile` on the implemented fragment. -/
def parsePat (p : PyStr) : Option Re :=
  (lex p).map (fun ts => altOf (splitBar ts))

/-- All suffixes left over after matching some prefix of `s` against `r`. -/
def Re.matchList : Re → PyStr → List PyStr
  | Re.eps, s => [s]
  | Re.ch _, [] => []
  | Re.ch c, x :: xs => if x = c then [xs] else []
  | Re.dot, [] => []
  | Re.dot, _ :: xs => [xs]
  | Re.alt a b, s => a.matchList s ++ b.matchList s
  | Re.seq a b, s => (a.matchList s).flatMap (fun t => b.matchList t)

/-- `re.search`: does the pattern match starting at any position? -/
def Re.search (r : Re) (s : PyStr) : Bool :=
  s.tails.any (fun t => decide (r.matchList t ≠ []))

/-! ### The `recommend` filter -/

/-- Python `'|'.join(strs)` (line 34). -/
def joinBar : List PyStr → PyStr
  | [] => []
  | [t] => t
  | t :: ts => t ++ '|' :: joinBar ts

/-- One element of `results['Cuisines'].str.contains(pattern, case=False,
na=False)`: NaN gives `False` (`na=False`), a non-string element gives NaN
hence `False`, a string is searched case-insensitively. -/
def cellMatches (r : Re) : Cell → Bool
  | Cell.str s => r.search (pyLower s)
  | _ => false

/-- One element of `results['Aggregate rating'] >= m`: NaN compares
`False`; a string element would make pandas raise and never occurs in a
loaded table, it is modelled as `False`. -/
def cellGe (c : Cell) (m : Rat) : Bool :=
  match c with
  | Cell.num q => decide (m ≤ q)
  | Cell.inf neg => !neg
  | _ => false

/-- Three-way comparison of rationals in descending order. -/
def cmpRat (x y : Rat) : Ordering :=
  if x < y then Ordering.lt else if y < x then Ordering.gt else Ordering.eq

/-- Three-way comparison of naturals in ascending order. -/
def cmpNat (x y : Nat) : Ordering :=
  if x < y then Ordering.lt else if y < x then Ordering.gt else Ordering.eq

/-- Type rank of a sort key used for cells that pandas cannot compare
(numbers first, strings next, NaN last — `na_position=last`). -/
def cellRank : Cell → Nat
  | Cell.num _ => 0
  | Cell.inf _ => 0
  | Cell.str _ => 1
  | Cell.na => 2

/-- Sort-key comparison for one `sort_values` key, `ascending=False`:
numbers descending with `+inf` largest and `-inf` smallest, NaN last;
non-numeric keys ordered by type rank only (outside the domain the
claims speak about). -/
def keyCmp (a b : Cell) : Ordering :=
  match a, b with
  | Cell.num x, Cell.num y => cmpRat y x
  | Cell.num _, Cell.inf n => if n then Ordering.lt else Ordering.gt
  | Cell.inf n, Cell.num _ => if n then Ordering.gt else Ordering.lt
  | Cell.inf n1, Cell.inf n2 =>
    if n1 = n2 then Ordering.eq else if n1 then Ordering.gt else Ordering.lt
  | a, b => cmpNat (cellRank a) (cellRank b)

/-- The two-key comparator of
`sort_values(['Aggregate rating', 'Votes'], ascending=[False, False])`. -/
def rowLe (a b : Row) : Bool :=
  match keyCmp a.rating b.rating with
  | Ordering.lt => true
  | Ordering.gt => false
  | Ordering.eq => decide (keyCmp a.votes b.votes ≠ Ordering.gt)

/-- The sort itself (a stable sort by the two-key comparator). -/
def sortRows (l : List Row) : List Row :=
  List.insertionSort (fun a b => rowLe a b = true) l

/-- Lines 33–35: if `preferences.get('cuisines')` is truthy (present and
non-empty), build `pattern = '|'.join(lowered tags)` and filter by
`str.contains`; reading a missing `Cuisines` column raises `KeyError`
before the pattern is compiled. -/
def cuisineStep (p : Prefs) (df : Df) : Except String Df :=
  match p.cuisines with
  | some (t :: ts) =>
    if df.hasCuisines then
      match parsePat (joinBar ((t :: ts).map pyLower)) with
      | some r =>
        Except.ok { df with rows := df.rows.filter (fun row => cellMatches r row.cuisines) }
      | none => Except.error "re.error: invalid cuisine pattern"
    else Except.error "KeyError: Cuisines"
  | _ => Except.ok df

/-- Lines 37–38: if `preferences.get('min_rating')` is truthy (present and
non-zero), keep rows with `Aggregate rating >= min_rating`. -/
def ratingStep (p : Prefs) (df : Df) : Except String Df :=
  match p.min_rating with
  | some m =>
    if m = 0 then Except.ok df
    else if df.hasRating then
      Except.ok { df with rows := df.rows.filter (fun row => cellGe row.rating m) }
    else Except.error "KeyError: Aggregate rating"
  | none => Except.ok df

/-- Line 40: `sort_values` references both sort keys (``KeyError`` when a
key column is missing, whatever the row count), then `.head(10)`. -/
def sortStep (df : Df) : Except String Df :=
  if df.hasRating && df.hasVotes then
    Except.ok { df with rows := (sortRows df.rows).take 10 }
  else Except.error "KeyError: sort_values"

/-- `RestaurantRecommender.recommend` (lines 30–40). -/
def recommend (df : Df) (p : Prefs) : Except String Df :=
  (cuisineStep p df).bind (fun r1 => (ratingStep p r1).bind (fun r2 => sortStep r2))

/-- The recommender object; its only state is the loaded frame `self.df`. -/
structure RestaurantRecommender where
  df : Df
deriving DecidableEq, Repr

/-- The `recommend` method as a state transformer: the body copies
`self.df` and every pandas operation used (boolean-mask filtering,
`sort_values`, `head`) returns a fresh frame, so the object state is
passed through unchanged. -/
def RestaurantRecommender.recommendM (self : RestaurantRecommender) (p : Prefs) :
    RestaurantRecommender × Except String Df :=
  (self, recommend self.df p)

/-! ### The `load_data` loader -/

/-- Numeric value of a digit string. -/
def digitsVal (ds : PyStr) : Nat :=
  ds.foldl (fun n c => n * 10 + (c.toNat - 48)) 0

/-- Strip leading and trailing spaces. -/
def trimSpaces (s : PyStr) : PyStr :=
  ((s.dropWhile (fun c => c = ' ')).reverse.dropWhile (fun c => c = ' ')).reverse

/-- The numeric parser behind `pd.to_numeric`: an optional sign and a
decimal literal (digits with an optional fractional part).  Exponents and
infinities are outside the model; anything else fails to parse. -/
def parseNum (s : PyStr) : Option Rat :=
  let t := trimSpaces s
  let signed : Bool × PyStr :=
    match t with
    | '-' :: r => (true, r)
    | '+' :: r => (false, r)
    | r => (false, r)
  let intPart := signed.2.takeWhile Char.isDigit
  let rest := signed.2.dropWhile Char.isDigit
  let body : Option Rat :=
    match rest with
    | [] => if intPart = [] then none else some (digitsVal intPart)
    | '.' :: frac =>
      if frac.all Char.isDigit && !(intPart = [] && frac = []) then
        some (digitsVal intPart + digitsVal frac / 10 ^ frac.length)
      else none
    | _ => none
  body.map (fun q => if signed.1 then -q else q)

/-- Recognition of the infinity tokens the numeric parser accepts: an
optional sign followed by "inf" or "infinity", case-insensitively, with
surrounding spaces; `true` means negative.  (Overflowing finite literals
such as "1e999" also yield float infinity in pandas; exponent notation
is outside the modelled numeric fragment.) -/
def parseInf (s : PyStr) : Option Bool :=
  let t := trimSpaces s
  let signed : Bool × PyStr :=
    match t with
    | '-' :: r => (true, r)
    | '+' :: r => (false, r)
    | r => (false, r)
  let body := pyLower signed.2
  if body = ['i', 'n', 'f'] || body = ['i', 'n', 'f', 'i', 'n', 'i', 't', 'y'] then
    some signed.1
  else none

/-- `pd.to_numeric(cell, errors='coerce')` on one cell: infinity tokens
parse to float infinities (not NA, so `fillna` leaves them alone). -/
def to_numeric : Cell → Cell
  | Cell.na => Cell.na
  | Cell.num q => Cell.num q
  | Cell.inf b => Cell.inf b
  | Cell.str s =>
    match parseInf s with
    | some b => Cell.inf b
    | none =>
      match parseNum s with
      | some q => Cell.num q
      | none => Cell.na

/-- `.fillna(0)` on one cell. -/
def fillna0 : Cell → Cell
  | Cell.na => Cell.num 0
  | c => c

/-- Line 24: `pd.to_numeric(df['Aggregate rating'], errors='coerce').fillna(0)`. -/
def cleanRating (c : Cell) : Cell := fillna0 (to_numeric c)

/-- `.fillna('Unknown')` on one cell. -/
def fillnaUnknown : Cell → Cell
  | Cell.na => Cell.str ['U', 'n', 'k', 'n', 'o', 'w', 'n']
  | c => c

/-- Rendering of a numeric cell by `astype(str)`; the exact digits are
irrelevant to every claim (the result is lowercased afterwards), so the
Lean rendering of `Rat` stands in for Python float formatting. -/
def ratStr (q : Rat) : PyStr := (toString q).toList

/-- `.astype(str)` on one cell (`fillna` ran first, so no NaN remains;
`astype(str)` would render it as the string `nan`). -/
def astypeStr : Cell → Cell
  | Cell.na => Cell.str ['n', 'a', 'n']
  | Cell.str s => Cell.str s
  | Cell.num q => Cell.str (ratStr q)
  | Cell.inf b => Cell.str (if b then ['-', 'i', 'n', 'f'] else ['i', 'n', 'f'])

/-- `.str.lower()` on one cell. -/
def lowerCell : Cell → Cell
  | Cell.str s => Cell.str (pyLower s)
  | c => c

/-- Line 23: `df['Cuisines'].fillna('Unknown').astype(str).str.lower()`. -/
def cleanCuisines (c : Cell) : Cell := lowerCell (astypeStr (fillnaUnknown c))

/-- The cleaning of one row (lines 23–24). -/
def cleanRow (r : Row) : Row :=
  { r with cuisines := cleanCuisines r.cuisines, rating := cleanRating r.rating }

/-- Lines 23–25: reading a missing `Cuisines` or `Aggregate rating`
column raises `KeyError` (caught by the outer handler); otherwise both
columns are rewritten cell by cell. -/
def clean (df : Df) : Option Df :=
  if df.hasCuisines && df.hasRating then
    some { df with rows := df.rows.map cleanRow }
  else none

/-- Outcome of one `pd.read_csv(path, encoding=e)` attempt. -/
inductive ReadResult
  | ok (df : Df)
  | unicodeErr
  | otherErr
deriving DecidableEq, Repr

/-- A source file, abstracted by what `read_csv` does on it under each of
the two encodings the code tries. -/
structure CsvFile where
  utf8 : ReadResult
  latin1 : ReadResult
deriving DecidableEq, Repr

/-- Lines 17–20: try UTF-8; on `UnicodeDecodeError` retry Latin-1.  Any
other failure (missing file, parse error), or a failure of the retry
itself, propagates to the outer handler (`none`). -/
def readRaw (f : CsvFile) : Option Df :=
  match f.utf8 with
  | ReadResult.ok df => some df
  | ReadResult.unicodeErr =>
    match f.latin1 with
    | ReadResult.ok df => some df
    | _ => none
  | ReadResult.otherErr => none

/-- Lines 22–28: clean the frame; any exception so far is caught and
yields `st.error(...)` (the `Bool`) plus `pd.DataFrame()`. -/
def afterRead : Option Df → Df × Bool
  | some df =>
    match clean df with
    | some d => (d, false)
    | none => (emptyDf, true)
  | none => (emptyDf, true)

/-- `RestaurantRecommender.load_data` (lines 14–28): the returned pair is
(resulting table, whether a load error was reported). -/
def load_data (f : CsvFile) : Df × Bool :=
  afterRead (readRaw f)

/-! ### Helper lemmas: the regex engine on alternations of literals -/

/-- A pattern character with no special regex meaning. -/
def litChar (c : Char) : Bool :=
  !metachar c && !(c == '\\') && !(c == '|') && !(c == '.')

lemma seqOf_lit_iff (t s : PyStr) :
    (seqOf (t.map Tok.lit)).matchList s ≠ [] ↔ t <+: s := by
  induction t generalizing s with
  | nil => simp [seqOf, Re.matchList, List.nil_prefix]
  | cons c t ih =>
    cases s with
    | nil => simp [seqOf, Re.matchList]
    | cons x xs =>
      by_cases hx : x = c
      · subst hx
        simp [seqOf, Re.matchList, List.cons_prefix_cons, ih]
      · simp only [seqOf, Re.matchList, List.cons_prefix_cons]
        simp [hx]
        intro h
        exact absurd h.symm hx

lemma search_lit_iff (t s : PyStr) :
    (seqOf (t.map Tok.lit)).search s = true ↔ t <:+: s := by
  unfold Re.search
  rw [List.any_eq_true]
  simp only [decide_eq_true_eq]
  constructor
  · rintro ⟨u, hu, hne⟩
    exact List.infix_iff_prefix_suffix.mpr
      ⟨u, (seqOf_lit_iff t u).mp hne, (List.mem_tails _ _).mp hu⟩
  · intro h
    obtain ⟨u, hp, hs⟩ := List.infix_iff_prefix_suffix.mp h
    exact ⟨u, (List.mem_tails _ _).mpr hs, (seqOf_lit_iff t u).mpr hp⟩

lemma search_alt (a b : Re) (s : PyStr) :
    (Re.alt a b).search s = true ↔ a.search s = true ∨ b.search s = true := by
  simp only [Re.search, List.any_eq_true, decide_eq_true_eq, Re.matchList]
  constructor
  · rintro ⟨u, hu, hne⟩
    by_cases ha : a.matchList u = []
    · right
      refine ⟨u, hu, ?_⟩
      intro hb
      exact hne (by rw [ha, hb]; rfl)
    · exact Or.inl ⟨u, hu, ha⟩
  · rintro (⟨u, hu, hne⟩ | ⟨u, hu, hne⟩)
    · exact ⟨u, hu, fun h => hne (List.append_eq_nil.mp h).1⟩
    · exact ⟨u, hu, fun h => hne (List.append_eq_nil.mp h).2⟩

lemma search_altOf (seg : List Tok) (segs : List (List Tok)) (s : PyStr) :
    (altOf (seg :: segs)).search s = true ↔
      ∃ sg ∈ seg :: segs, (seqOf sg).search s = true := by
  induction segs generalizing seg with
  | nil => simp [altOf]
  | cons sg2 segs ih =>
    have : altOf (seg :: sg2 :: segs) = Re.alt (seqOf seg) (altOf (sg2 :: segs)) := rfl
    rw [this, search_alt, ih sg2]
    simp only [List.mem_cons]
    constructor
    · rintro (h | ⟨sg, hsg, h⟩)
      · exact ⟨seg, Or.inl rfl, h⟩
      · exact ⟨sg, Or.inr hsg, h⟩
    · rintro ⟨sg, (rfl | hsg), h⟩
      · exact Or.inl h
      · exact Or.inr ⟨sg, hsg, h⟩

lemma lex_lit_cons (c : Char) (rest : PyStr) (h : litChar c = true) :
    lex (c :: rest) = (lex rest).map (fun ts => Tok.lit c :: ts) := by
  unfold litChar at h
  simp only [Bool.and_eq_true, Bool.not_eq_true', beq_eq_false_iff_ne, ne_eq] at h
  obtain ⟨⟨⟨hm, hbs⟩, hbar⟩, hdot⟩ := h
  conv_lhs => rw [lex.eq_def]
  dsimp only
  rw [if_neg hbs, if_neg (by rw [hm]; exact Bool.false_ne_true)]
  simp [hbar, hdot]

lemma lex_bar_cons (rest : PyStr) :
    lex ('|' :: rest) = (lex rest).map (fun ts => Tok.bar :: ts) := by
  conv_lhs => rw [lex.eq_def]
  dsimp only
  rw [if_neg (by decide), if_neg (by simp [metachar])]
  simp

lemma lex_append_lit (t rest : PyStr) (h : ∀ c ∈ t, litChar c = true) :
    lex (t ++ rest) = (lex rest).map (fun ts => t.map Tok.lit ++ ts) := by
  induction t with
  | nil =>
    simp
  | cons c t ih =>
    rw [List.cons_append, lex_lit_cons c _ (h c (by simp)),
      ih (fun d hd => h d (by simp [hd]))]
    cases lex rest <;> simp

/-- The token list that lexing `joinBar tags` yields for literal tags. -/
def interTok : List PyStr → List Tok
  | [] => []
  | [t] => t.map Tok.lit
  | t :: ts => t.map Tok.lit ++ Tok.bar :: interTok ts

lemma lex_joinBar (tags : List PyStr) (h : ∀ t ∈ tags, ∀ c ∈ t, litChar c = true) :
    lex (joinBar tags) = some (interTok tags) := by
  induction tags with
  | nil => simp [joinBar, interTok, lex]
  | cons t ts ih =>
    cases ts with
    | nil =>
      have : joinBar [t] = t ++ [] := by simp [joinBar]
      rw [this, lex_append_lit t [] (h t (by simp))]
      simp [lex, interTok]
    | cons t2 ts2 =>
      have hj : joinBar (t :: t2 :: ts2) = t ++ '|' :: joinBar (t2 :: ts2) := rfl
      rw [hj, lex_append_lit t _ (h t (by simp)), lex_bar_cons,
        ih (fun u hu => h u (by simp [List.mem_cons] at hu ⊢; tauto))]
      rfl

lemma splitBar_ne_nil (ts : List Tok) : splitBar ts ≠ [] := by
  cases ts with
  | nil => simp [splitBar]
  | cons t rest =>
    cases t with
    | bar => simp [splitBar]
    | dot =>
      show (match splitBar rest with
        | [] => [[Tok.dot]]
        | seg :: segs => (Tok.dot :: seg) :: segs) ≠ []
      cases splitBar rest <;> simp
    | lit c =>
      show (match splitBar rest with
        | [] => [[Tok.lit c]]
        | seg :: segs => (Tok.lit c :: seg) :: segs) ≠ []
      cases splitBar rest <;> simp

lemma splitBar_lit_bar (t : PyStr) (ts : List Tok) :
    splitBar (t.map Tok.lit ++ Tok.bar :: ts) = t.map Tok.lit :: splitBar ts := by
  induction t with
  | nil => simp [splitBar]
  | cons c t ih =>
    show (match splitBar (t.map Tok.lit ++ Tok.bar :: ts) with
      | [] => [[Tok.lit c]]
      | seg :: segs => (Tok.lit c :: seg) :: segs) = _
    rw [ih]
    rfl

lemma splitBar_lit (t : PyStr) : splitBar (t.map Tok.lit) = [t.map Tok.lit] := by
  induction t with
  | nil => rfl
  | cons c t ih =>
    show (match splitBar (t.map Tok.lit) with
      | [] => [[Tok.lit c]]
      | seg :: segs => (Tok.lit c :: seg) :: segs) = _
    rw [ih]
    rfl

lemma splitBar_interTok (tags : List PyStr) (hne : tags ≠ []) :
    splitBar (interTok tags) = tags.map (fun t => t.map Tok.lit) := by
  induction tags with
  | nil => exact absurd rfl hne
  | cons t ts ih =>
    cases ts with
    | nil => simp [interTok, splitBar_lit]
    | cons t2 ts2 =>
      have : interTok (t :: t2 :: ts2) = t.map Tok.lit ++ Tok.bar :: interTok (t2 :: ts2) := rfl
      rw [List.map_cons, this, splitBar_lit_bar, ih (by simp)]

/-- `re.compile('|'.join(tags))` on literal tags succeeds and its search
is exactly "some tag occurs as a contiguous substring". -/
lemma parsePat_literal (tags : List PyStr) (hne : tags ≠ [])
    (h : ∀ t ∈ tags, ∀ c ∈ t, litChar c = true) :
    ∃ R, parsePat (joinBar tags) = some R ∧
      ∀ s : PyStr, R.search s = true ↔ ∃ t ∈ tags, t <:+: s := by
  refine ⟨altOf (tags.map (fun t => t.map Tok.lit)), ?_, ?_⟩
  · simp [parsePat, lex_joinBar tags h, splitBar_interTok tags hne]
  · intro s
    cases tags with
    | nil => exact absurd rfl hne
    | cons t ts =>
      rw [List.map_cons, search_altOf]
      constructor
      · rintro ⟨sg, hsg, hs⟩
        rw [← List.map_cons] at hsg
        obtain ⟨u, hu, rfl⟩ := List.mem_map.mp hsg
        exact ⟨u, hu, (search_lit_iff u s).mp hs⟩
      · rintro ⟨u, hu, hinf⟩
        refine ⟨u.map Tok.lit, ?_, (search_lit_iff u s).mpr hinf⟩
        rw [← List.map_cons]
        exact List.mem_map.mpr ⟨u, hu, rfl⟩

/-! ### Helper lemmas: the two-key descending comparator -/

lemma cmpRat_lt_iff (x y : Rat) : cmpRat x y = Ordering.lt ↔ x < y := by
  unfold cmpRat
  split_ifs with h1 h2 <;> simp [*]

lemma cmpRat_gt_iff (x y : Rat) : cmpRat x y = Ordering.gt ↔ y < x := by
  unfold cmpRat
  split_ifs with h1 h2
  · simp [asymm h1]
  · simp [h2]
  · simp [h2]

lemma cmpRat_eq_iff (x y : Rat) : cmpRat x y = Ordering.eq ↔ x = y := by
  unfold cmpRat
  split_ifs with h1 h2
  · simp [ne_of_lt h1]
  · simp [(ne_of_lt h2).symm]
  · simp
    exact le_antisymm (not_lt.mp h2) (not_lt.mp h1)

lemma cmpRat_ne_gt_iff (x y : Rat) : ¬cmpRat x y = Ordering.gt ↔ x ≤ y := by
  rw [cmpRat_gt_iff, not_lt]

lemma cmpNat_lt_iff (x y : Nat) : cmpNat x y = Ordering.lt ↔ x < y := by
  unfold cmpNat
  split_ifs with h1 h2 <;> simp [*]

lemma cmpNat_gt_iff (x y : Nat) : cmpNat x y = Ordering.gt ↔ y < x := by
  unfold cmpNat
  split_ifs with h1 h2 <;> simp <;> omega

lemma cmpNat_eq_iff (x y : Nat) : cmpNat x y = Ordering.eq ↔ x = y := by
  unfold cmpNat
  split_ifs with h1 h2 <;> simp <;> omega

lemma cmpNat_ne_gt_iff (x y : Nat) : ¬cmpNat x y = Ordering.gt ↔ x ≤ y := by
  rw [cmpNat_gt_iff, not_lt]

lemma keyCmp_lt_trans {x y z : Cell} (h1 : keyCmp x y = Ordering.lt)
    (h2 : keyCmp y z = Ordering.lt) : keyCmp x z = Ordering.lt := by
  cases x <;> cases y <;> cases z <;>
    simp only [keyCmp, cellRank, cmpRat_lt_iff, cmpNat_lt_iff] at h1 h2 ⊢
  all_goals try split_ifs at h1 h2 ⊢
  all_goals first
    | rfl
    | omega
    | linarith
    | simp_all [Ordering.swap]
    | (simp_all [Ordering.swap]; omega)
    | (simp_all [Ordering.swap]; linarith)

lemma keyCmp_eq_trans {x y z : Cell} (h1 : keyCmp x y = Ordering.eq)
    (h2 : keyCmp y z = Ordering.eq) : keyCmp x z = Ordering.eq := by
  cases x <;> cases y <;> cases z <;>
    simp only [keyCmp, cellRank, cmpRat_eq_iff, cmpNat_eq_iff] at h1 h2 ⊢
  all_goals try split_ifs at h1 h2 ⊢
  all_goals first
    | rfl
    | omega
    | linarith
    | simp_all [Ordering.swap]
    | (simp_all [Ordering.swap]; omega)
    | (simp_all [Ordering.swap]; linarith)

lemma keyCmp_lt_of_lt_of_eq {x y z : Cell} (h1 : keyCmp x y = Ordering.lt)
    (h2 : keyCmp y z = Ordering.eq) : keyCmp x z = Ordering.lt := by
  cases x <;> cases y <;> cases z <;>
    simp only [keyCmp, cellRank, cmpRat_lt_iff, cmpRat_eq_iff, cmpNat_lt_iff,
      cmpNat_eq_iff] at h1 h2 ⊢
  all_goals try split_ifs at h1 h2 ⊢
  all_goals first
    | rfl
    | omega
    | linarith
    | simp_all [Ordering.swap]
    | (simp_all [Ordering.swap]; omega)
    | (simp_all [Ordering.swap]; linarith)

lemma keyCmp_lt_of_eq_of_lt {x y z : Cell} (h1 : keyCmp x y = Ordering.eq)
    (h2 : keyCmp y z = Ordering.lt) : keyCmp x z = Ordering.lt := by
  cases x <;> cases y <;> cases z <;>
    simp only [keyCmp, cellRank, cmpRat_lt_iff, cmpRat_eq_iff, cmpNat_lt_iff,
      cmpNat_eq_iff] at h1 h2 ⊢
  all_goals try split_ifs at h1 h2 ⊢
  all_goals first
    | rfl
    | omega
    | linarith
    | simp_all [Ordering.swap]
    | (simp_all [Ordering.swap]; omega)
    | (simp_all [Ordering.swap]; linarith)

lemma keyCmp_le_trans {x y z : Cell} (h1 : ¬keyCmp x y = Ordering.gt)
    (h2 : ¬keyCmp y z = Ordering.gt) : ¬keyCmp x z = Ordering.gt := by
  cases x <;> cases y <;> cases z <;>
    simp only [keyCmp, cellRank, cmpRat_ne_gt_iff, cmpNat_ne_gt_iff] at h1 h2 ⊢
  all_goals try split_ifs at h1 h2 ⊢
  all_goals first
    | rfl
    | omega
    | linarith
    | simp_all [Ordering.swap]
    | (simp_all [Ordering.swap]; omega)
    | (simp_all [Ordering.swap]; linarith)

lemma cmpRat_swap (x y : Rat) : cmpRat y x = (cmpRat x y).swap := by
  unfold cmpRat
  rcases lt_trichotomy x y with h | h | h
  · simp [h, asymm h, Ordering.swap]
  · subst h
    simp [lt_irrefl, Ordering.swap]
  · simp [h, asymm h, Ordering.swap]

lemma cmpNat_swap (x y : Nat) : cmpNat y x = (cmpNat x y).swap := by
  unfold cmpNat
  rcases Nat.lt_trichotomy x y with h | h | h
  · simp [h, asymm h, Ordering.swap]
  · subst h
    simp [lt_irrefl, Ordering.swap]
  · simp [h, asymm h, Ordering.swap]

lemma keyCmp_swap (a b : Cell) : keyCmp b a = (keyCmp a b).swap := by
  cases a <;> cases b <;>
    first
      | exact cmpNat_swap _ _
      | exact cmpRat_swap _ _
      | (simp only [keyCmp]
         split_ifs <;> simp_all [Ordering.swap])

lemma rowLe_iff (a b : Row) :
    rowLe a b = true ↔ keyCmp a.rating b.rating = Ordering.lt ∨
      (keyCmp a.rating b.rating = Ordering.eq ∧ ¬keyCmp a.votes b.votes = Ordering.gt) := by
  unfold rowLe
  rcases h : keyCmp a.rating b.rating <;> simp [h]

instance : IsTrans Row (fun a b => rowLe a b = true) := by
  constructor
  intro a b c hab hbc
  rw [rowLe_iff] at hab hbc ⊢
  rcases hab with h1 | ⟨h1, v1⟩ <;> rcases hbc with h2 | ⟨h2, v2⟩
  · exact Or.inl (keyCmp_lt_trans h1 h2)
  · exact Or.inl (keyCmp_lt_of_lt_of_eq h1 h2)
  · exact Or.inl (keyCmp_lt_of_eq_of_lt h1 h2)
  · exact Or.inr ⟨keyCmp_eq_trans h1 h2, keyCmp_le_trans v1 v2⟩

instance : IsTotal Row (fun a b => rowLe a b = true) := by
  constructor
  intro a b
  rw [rowLe_iff, rowLe_iff]
  rcases h : keyCmp a.rating b.rating with _ | _ | _
  · exact Or.inl (Or.inl rfl)
  · have hba : keyCmp b.rating a.rating = Ordering.eq := by
      rw [keyCmp_swap, h]; rfl
    rcases hv : keyCmp a.votes b.votes with _ | _ | _
    · exact Or.inl (Or.inr ⟨rfl, by simp⟩)
    · exact Or.inl (Or.inr ⟨rfl, by simp⟩)
    · have hvs : keyCmp b.votes a.votes = Ordering.lt := by
        rw [keyCmp_swap, hv]; rfl
      exact Or.inr (Or.inr ⟨hba, by simp [hvs]⟩)
  · have hlt : keyCmp b.rating a.rating = Ordering.lt := by
      rw [keyCmp_swap, h]; rfl
    exact Or.inr (Or.inl hlt)

/-! ### Helper lemmas: the filter pipeline -/

lemma sortRows_perm (l : List Row) : (sortRows l).Perm l :=
  List.perm_insertionSort _ l

lemma sortRows_sorted (l : List Row) :
    List.Sorted (fun a b => rowLe a b = true) (sortRows l) :=
  List.sorted_insertionSort _ l

lemma cuisineStep_skip {p : Prefs} {df : Df}
    (h : p.cuisines = none ∨ p.cuisines = some []) :
    cuisineStep p df = Except.ok df := by
  unfold cuisineStep
  rcases h with h | h <;> rw [h]

lemma cuisineStep_ok {p : Prefs} {df d : Df} (h : cuisineStep p df = Except.ok d) :
    d.hasCuisines = df.hasCuisines ∧ d.hasRating = df.hasRating ∧
      d.hasVotes = df.hasVotes ∧ ∃ g, d.rows = df.rows.filter g := by
  unfold cuisineStep at h
  rcases hc : p.cuisines with _ | ts
  · rw [hc] at h
    simp only at h
    cases h
    exact ⟨rfl, rfl, rfl, fun _ => true, (List.filter_true _).symm⟩
  · rcases ts with _ | ⟨t, ts2⟩
    · rw [hc] at h
      simp only at h
      cases h
      exact ⟨rfl, rfl, rfl, fun _ => true, (List.filter_true _).symm⟩
    · rw [hc] at h
      simp only at h
      by_cases hcol : df.hasCuisines
      · rw [if_pos hcol] at h
        rcases hp : parsePat (joinBar ((t :: ts2).map pyLower)) with _ | r
        · rw [hp] at h
          cases h
        · rw [hp] at h
          simp only [Except.ok.injEq] at h
          subst h
          exact ⟨rfl, rfl, rfl, fun row => cellMatches r row.cuisines, rfl⟩
      · rw [if_neg hcol] at h
        cases h

lemma ratingStep_skip {p : Prefs} {df : Df} (h : p.min_rating = none) :
    ratingStep p df = Except.ok df := by
  unfold ratingStep
  rw [h]

lemma ratingStep_zero {p : Prefs} {df : Df} (h : p.min_rating = some 0) :
    ratingStep p df = Except.ok df := by
  unfold ratingStep
  rw [h]
  simp

lemma ratingStep_ok {p : Prefs} {df d : Df} (h : ratingStep p df = Except.ok d) :
    d.hasCuisines = df.hasCuisines ∧ d.hasRating = df.hasRating ∧
      d.hasVotes = df.hasVotes ∧ ∃ g, d.rows = df.rows.filter g := by
  unfold ratingStep at h
  rcases hm : p.min_rating with _ | m
  · rw [hm] at h
    simp only at h
    cases h
    exact ⟨rfl, rfl, rfl, fun _ => true, (List.filter_true _).symm⟩
  · rw [hm] at h
    simp only at h
    by_cases hz : m = 0
    · rw [if_pos hz] at h
      cases h
      exact ⟨rfl, rfl, rfl, fun _ => true, (List.filter_true _).symm⟩
    · rw [if_neg hz] at h
      by_cases hcol : df.hasRating
      · rw [if_pos hcol] at h
        simp only [Except.ok.injEq] at h
        subst h
        exact ⟨rfl, rfl, rfl, fun row => cellGe row.rating m, rfl⟩
      · rw [if_neg hcol] at h
        cases h

lemma ratingStep_filter {p : Prefs} {df : Df} {m : Rat} (hm : p.min_rating = some m)
    (hz : ¬m = 0) (hcol : df.hasRating = true) :
    ratingStep p df =
      Except.ok { df with rows := df.rows.filter (fun row => cellGe row.rating m) } := by
  unfold ratingStep
  rw [hm]
  simp only [if_neg hz, if_pos hcol]

lemma sortStep_ok {df d : Df} (h : sortStep df = Except.ok d) :
    d.hasCuisines = df.hasCuisines ∧ d.hasRating = df.hasRating ∧
      d.hasVotes = df.hasVotes ∧ d.rows = (sortRows df.rows).take 10 ∧
      df.hasRating = true ∧ df.hasVotes = true := by
  unfold sortStep at h
  by_cases hb : df.hasRating && df.hasVotes
  · rw [if_pos hb] at h
    simp only [Except.ok.injEq] at h
    subst h
    refine ⟨rfl, rfl, rfl, rfl, ?_, ?_⟩
    · exact (Bool.and_eq_true _ _ |>.mp hb).1
    · exact (Bool.and_eq_true _ _ |>.mp hb).2
  · rw [if_neg hb] at h
    cases h

lemma recommend_ok {df : Df} {p : Prefs} {res : Df} (h : recommend df p = Except.ok res) :
    ∃ d1 d2, cuisineStep p df = Except.ok d1 ∧ ratingStep p d1 = Except.ok d2 ∧
      sortStep d2 = Except.ok res := by
  unfold recommend at h
  rcases h1 : cuisineStep p df with e | d1
  · rw [h1] at h
    simp [Except.bind] at h
  · rw [h1] at h
    simp only [Except.bind] at h
    rcases h2 : ratingStep p d1 with e | d2
    · rw [h2] at h
      simp [Except.bind] at h
    · rw [h2] at h
      simp only [Except.bind] at h
      exact ⟨d1, d2, rfl, h2, h⟩

lemma recommend_subset {df : Df} {p : Prefs} {res : Df}
    (h : recommend df p = Except.ok res) : ∀ row ∈ res.rows, row ∈ df.rows := by
  obtain ⟨d1, d2, h1, h2, h3⟩ := recommend_ok h
  obtain ⟨_, _, _, g1, hg1⟩ := cuisineStep_ok h1
  obtain ⟨_, _, _, g2, hg2⟩ := ratingStep_ok h2
  obtain ⟨_, _, _, hrows, _, _⟩ := sortStep_ok h3
  intro row hr
  rw [hrows] at hr
  have h4 : row ∈ sortRows d2.rows := List.mem_of_mem_take hr
  have h5 : row ∈ d2.rows := (sortRows_perm d2.rows).mem_iff.mp h4
  rw [hg2] at h5
  have h6 : row ∈ d1.rows := (List.mem_filter.mp h5).1
  rw [hg1] at h6
  exact (List.mem_filter.mp h6).1

lemma recommend_length {df : Df} {p : Prefs} {res : Df}
    (h : recommend df p = Except.ok res) :
    ∃ d2, (cuisineStep p df).bind (fun r1 => ratingStep p r1) = Except.ok d2 ∧
      res.rows.length = min 10 d2.rows.length ∧
      (d2.rows.length ≤ 10 → res.rows.Perm d2.rows) := by
  obtain ⟨d1, d2, h1, h2, h3⟩ := recommend_ok h
  obtain ⟨_, _, _, hrows, _, _⟩ := sortStep_ok h3
  refine ⟨d2, ?_, ?_, ?_⟩
  · rw [h1]
    simpa [Except.bind] using h2
  · rw [hrows, List.length_take, (sortRows_perm d2.rows).length_eq]
  · intro hle
    rw [hrows, List.take_of_length_le (by rw [(sortRows_perm d2.rows).length_eq]; exact hle)]
    exact sortRows_perm d2.rows

lemma load_data_cases (f : CsvFile) :
    load_data f = (emptyDf, true) ∨ ∃ d, load_data f = (d, false) := by
  unfold load_data afterRead
  rcases readRaw f with _ | df
  · exact Or.inl rfl
  · simp only
    rcases clean df with _ | d
    · exact Or.inl rfl
    · exact Or.inr ⟨d, rfl⟩

lemma load_data_other_err (f : CsvFile) (h : f.utf8 = ReadResult.otherErr) :
    load_data f = (emptyDf, true) := by
  unfold load_data readRaw
  rw [h]
  rfl

lemma load_data_retry (f : CsvFile) (raw : Df) (h1 : f.utf8 = ReadResult.unicodeErr)
    (h2 : f.latin1 = ReadResult.ok raw) : load_data f = afterRead (some raw) := by
  unfold load_data readRaw
  rw [h1, h2]

lemma load_data_retry_err (f : CsvFile) (h1 : f.utf8 = ReadResult.unicodeErr)
    (h2 : ∀ raw, f.latin1 ≠ ReadResult.ok raw) : load_data f = (emptyDf, true) := by
  unfold load_data readRaw
  rw [h1]
  rcases hl : f.latin1 with raw | _ | _
  · exact absurd hl (h2 raw)
  · rfl
  · rfl

lemma load_data_schema_err (f : CsvFile) (raw : Df) (h : f.utf8 = ReadResult.ok raw)
    (hcols : (raw.hasCuisines && raw.hasRating) = false) :
    load_data f = (emptyDf, true) := by
  unfold load_data readRaw
  rw [h]
  unfold afterRead clean
  simp only
  rw [if_neg (by rw [hcols]; exact Bool.false_ne_true)]

/-! ### Helper lemmas: the cuisine filter on literal tags -/

lemma cuisineStep_col {p : Prefs} {df d : Df} {t : PyStr} {ts : List PyStr}
    (hc : p.cuisines = some (t :: ts)) (h : cuisineStep p df = Except.ok d) :
    df.hasCuisines = true := by
  unfold cuisineStep at h
  rw [hc] at h
  simp only at h
  by_cases hcol : df.hasCuisines = true
  · exact hcol
  · rw [if_neg hcol] at h
    cases h

lemma cuisineStep_literal {p : Prefs} {df : Df} {tags : List PyStr}
    (hc : p.cuisines = some tags) (hne : tags ≠ [])
    (hlit : ∀ t ∈ tags, ∀ c ∈ pyLower t, litChar c = true)
    (hcol : df.hasCuisines = true) :
    ∃ g, cuisineStep p df = Except.ok { df with rows := df.rows.filter g } ∧
      (∀ row : Row, ∀ s, row.cuisines = Cell.str s →
        (g row = true ↔ ∃ t ∈ tags, pyLower t <:+: pyLower s)) ∧
      (∀ row : Row, (∀ s, row.cuisines ≠ Cell.str s) → g row = false) := by
  rcases tags with _ | ⟨t, ts⟩
  · exact absurd rfl hne
  · have hlit2 : ∀ u ∈ (t :: ts).map pyLower, ∀ c ∈ u, litChar c = true := by
      intro u hu c hcu
      obtain ⟨v, hv, rfl⟩ := List.mem_map.mp hu
      exact hlit v hv c hcu
    obtain ⟨R, hR, hsem⟩ := parsePat_literal ((t :: ts).map pyLower) (by simp) hlit2
    refine ⟨fun row => cellMatches R row.cuisines, ?_, ?_, ?_⟩
    · unfold cuisineStep
      rw [hc]
      simp only
      rw [if_pos hcol, hR]
    · intro row s hs
      show cellMatches R row.cuisines = true ↔ _
      rw [hs]
      unfold cellMatches
      rw [hsem (pyLower s)]
      constructor
      · rintro ⟨u, hu, hinf⟩
        obtain ⟨v, hv, rfl⟩ := List.mem_map.mp hu
        exact ⟨v, hv, hinf⟩
      · rintro ⟨v, hv, hinf⟩
        exact ⟨pyLower v, List.mem_map.mpr ⟨v, hv, rfl⟩, hinf⟩
    · intro row hrow
      cases hcu : row.cuisines with
      | na => simp [cellMatches, hcu]
      | num q => simp [cellMatches, hcu]
      | inf b => simp [cellMatches, hcu]
      | str s => exact absurd hcu (hrow s)

/-- The row predicate applied by the `min_rating` filter. -/
def ratingPred (p : Prefs) : Row → Bool :=
  match p.min_rating with
  | some m => if m = 0 then fun _ => true else fun row => cellGe row.rating m
  | none => fun _ => true

lemma ratingStep_rows {p : Prefs} {df d : Df} (h : ratingStep p df = Except.ok d) :
    d.rows = df.rows.filter (ratingPred p) := by
  unfold ratingStep at h
  unfold ratingPred
  rcases hm : p.min_rating with _ | m
  · rw [hm] at h
    simp only at h
    cases h
    exact (List.filter_true _).symm
  · rw [hm] at h
    simp only at h
    dsimp only
    by_cases hz : m = 0
    · rw [if_pos hz] at h
      cases h
      rw [if_pos hz]
      exact (List.filter_true _).symm
    · rw [if_neg hz] at h
      rw [if_neg hz]
      by_cases hcol : df.hasRating = true
      · rw [if_pos hcol] at h
        simp only [Except.ok.injEq] at h
        subst h
        rfl
      · rw [if_neg hcol] at h
        cases h

/-! ### Claims -/

/-- C1, counterexample: with requested tag `"."`, `recommend` keeps the
record whose cuisines string is `"x"`, although `"."` is not a substring
of `"x"` — `str.contains` does a regex search, so `.` matches any
character.  This refutes "keeps exactly the records whose `cuisines`
string contains at least one of the requested tags as a case-insensitive
substring ... for any requested tag strings". -/
theorem C1_counterexample :
    recommend (Df.mk true true true [Row.mk (Cell.str ['x']) (Cell.num 4) (Cell.num 7)])
        (Prefs.mk (some [['.']]) none) =
      Except.ok (Df.mk true true true [Row.mk (Cell.str ['x']) (Cell.num 4) (Cell.num 7)]) ∧
    ¬pyLower ['.'] <:+: pyLower ['x'] := by
  exact ⟨rfl, by decide⟩

/-- C1 (amended): restricted to requested tags whose lowercased form
contains only characters with no special regex meaning, the cuisine
filter keeps exactly the records whose `cuisines` string contains some
tag, case-insensitively, as a substring; and an empty (or absent)
`cuisines` set applies no restriction at all. -/
theorem C1_cuisine_substring :
    (∀ (df : Df) (p : Prefs) (tags : List PyStr),
      p.cuisines = some tags → tags ≠ [] →
      (∀ t ∈ tags, ∀ c ∈ pyLower t, litChar c = true) →
      df.hasCuisines = true →
      ∃ g, cuisineStep p df = Except.ok { df with rows := df.rows.filter g } ∧
        ∀ row ∈ df.rows, ∀ s, row.cuisines = Cell.str s →
          (g row = true ↔ ∃ t ∈ tags, pyLower t <:+: pyLower s)) ∧
    (∀ (df : Df) (p : Prefs), p.cuisines = none ∨ p.cuisines = some [] →
      cuisineStep p df = Except.ok df) := by
  constructor
  · intro df p tags hc hne hlit hcol
    obtain ⟨g, hstep, hsem, _⟩ := cuisineStep_literal hc hne hlit hcol
    exact ⟨g, hstep, fun row _ s hs => hsem row s hs⟩
  · intro df p h
    exact cuisineStep_skip h

/-- Witness for C1: tags `["ta"]` on a two-record table keep exactly the
record whose cuisines contains `"ta"`. -/
theorem C1_cuisine_substring_witness :
    (∃ g, cuisineStep (Prefs.mk (some [['t', 'a']]) none)
        (Df.mk true true true [Row.mk (Cell.str ['x', 't', 'a']) (Cell.num 4) (Cell.num 7)]) =
      Except.ok { Df.mk true true true
          [Row.mk (Cell.str ['x', 't', 'a']) (Cell.num 4) (Cell.num 7)] with
        rows := (Df.mk true true true
          [Row.mk (Cell.str ['x', 't', 'a']) (Cell.num 4) (Cell.num 7)]).rows.filter g } ∧
      ∀ row ∈ (Df.mk true true true
          [Row.mk (Cell.str ['x', 't', 'a']) (Cell.num 4) (Cell.num 7)]).rows,
        ∀ s, row.cuisines = Cell.str s →
          (g row = true ↔ ∃ t ∈ [['t', 'a']], pyLower t <:+: pyLower s)) ∧
    cuisineStep (Prefs.mk (some []) none) (Df.mk true true true []) =
      Except.ok (Df.mk true true true []) :=
  ⟨C1_cuisine_substring.1 _ _ [['t', 'a']] rfl (by decide) (by decide) rfl,
   C1_cuisine_substring.2 _ _ (Or.inr rfl)⟩

/-- C2, counterexample: a loaded table can contain a negative rating
(source cell `"-1"` parses to `-1`); with `min_rating` provided as `0`
the record is kept, because `preferences.get('min_rating')` is falsy for
`0` and the filter is skipped — refuting "excludes exactly the records
with `rating < min_rating`" for every provided `min_rating`. -/
theorem C2_counterexample :
    load_data (CsvFile.mk (ReadResult.ok (Df.mk true true true
        [Row.mk (Cell.str ['x']) (Cell.str ['-', '1']) (Cell.num 3)])) ReadResult.otherErr) =
      (Df.mk true true true [Row.mk (Cell.str ['x']) (Cell.num (-1)) (Cell.num 3)], false) ∧
    recommend (Df.mk true true true [Row.mk (Cell.str ['x']) (Cell.num (-1)) (Cell.num 3)])
        (Prefs.mk none (some 0)) =
      Except.ok (Df.mk true true true [Row.mk (Cell.str ['x']) (Cell.num (-1)) (Cell.num 3)]) ∧
    (-1 : Rat) < 0 := by
  refine ⟨rfl, rfl, by norm_num⟩

/-- C2 (amended): when `min_rating` is provided with a non-zero value,
the rating filter keeps exactly the records with `rating >= min_rating`
(the bound is inclusive); an absent `min_rating` key applies no rating
restriction.  (A provided value of `0` is falsy in Python and also skips
the filter — see C9.) -/
theorem C2_rating_filter :
    (∀ (df : Df) (p : Prefs) (m : Rat),
      p.min_rating = some m → m ≠ 0 → df.hasRating = true →
      ratingStep p df =
        Except.ok { df with rows := df.rows.filter (fun row => cellGe row.rating m) } ∧
      ∀ row ∈ df.rows, ∀ q, row.rating = Cell.num q →
        (cellGe row.rating m = true ↔ m ≤ q)) ∧
    (∀ (df : Df) (p : Prefs), p.min_rating = none → ratingStep p df = Except.ok df) := by
  constructor
  · intro df p m hm hz hcol
    refine ⟨ratingStep_filter hm hz hcol, ?_⟩
    intro row _ q hq
    rw [hq]
    simp [cellGe]
  · intro df p h
    exact ratingStep_skip h

/-- Witness for C2: `min_rating = 3` on a one-record table with rating 4
filters by `rating >= 3`, and the record with rating `4 ≥ 3` passes. -/
theorem C2_rating_filter_witness :
    (ratingStep (Prefs.mk none (some 3))
        (Df.mk true true true [Row.mk (Cell.str ['x']) (Cell.num 4) (Cell.num 7)]) =
      Except.ok { Df.mk true true true [Row.mk (Cell.str ['x']) (Cell.num 4) (Cell.num 7)] with
        rows := (Df.mk true true true
          [Row.mk (Cell.str ['x']) (Cell.num 4) (Cell.num 7)]).rows.filter
            (fun row => cellGe row.rating 3) } ∧
      ∀ row ∈ (Df.mk true true true
          [Row.mk (Cell.str ['x']) (Cell.num 4) (Cell.num 7)]).rows,
        ∀ q, row.rating = Cell.num q → (cellGe row.rating 3 = true ↔ 3 ≤ q)) ∧
    ratingStep (Prefs.mk none none) (Df.mk true true true []) =
      Except.ok (Df.mk true true true []) :=
  ⟨C2_rating_filter.1 _ _ 3 rfl (by norm_num) rfl, C2_rating_filter.2 _ _ rfl⟩

/-- C3: on a table whose rating and votes cells are numeric, every pair
of adjacent records `(a, b)` in the result of `recommend` satisfies
`a.rating > b.rating`, or `a.rating == b.rating` and `a.votes >= b.votes`
(descending sort by rating, ties broken descending by votes). -/
theorem C3_sorted (df : Df) (p : Prefs) (res : Df)
    (hnum : ∀ row ∈ df.rows, (∃ q, row.rating = Cell.num q) ∧ ∃ v, row.votes = Cell.num v)
    (h : recommend df p = Except.ok res) :
    List.Chain' (fun a b => ∃ qa va qb vb,
      a.rating = Cell.num qa ∧ a.votes = Cell.num va ∧
      b.rating = Cell.num qb ∧ b.votes = Cell.num vb ∧
      (qb < qa ∨ (qa = qb ∧ vb ≤ va))) res.rows := by
  obtain ⟨d1, d2, h1, h2, h3⟩ := recommend_ok h
  obtain ⟨_, _, _, hrows, _, _⟩ := sortStep_ok h3
  have hmem : ∀ row ∈ res.rows, row ∈ df.rows := recommend_subset h
  have hsorted : List.Pairwise (fun a b => rowLe a b = true) (sortRows d2.rows) :=
    sortRows_sorted d2.rows
  have htake : List.Pairwise (fun a b => rowLe a b = true) res.rows := by
    rw [hrows]
    exact List.Pairwise.sublist (List.take_sublist _ _) hsorted
  refine List.Pairwise.chain' ?_
  refine htake.imp_of_mem ?_
  intro a b ha hb hab
  obtain ⟨⟨qa, hqa⟩, ⟨va, hva⟩⟩ := hnum a (hmem a ha)
  obtain ⟨⟨qb, hqb⟩, ⟨vb, hvb⟩⟩ := hnum b (hmem b hb)
  refine ⟨qa, va, qb, vb, hqa, hva, hqb, hvb, ?_⟩
  rw [rowLe_iff, hqa, hqb, hva, hvb] at hab
  simp only [keyCmp] at hab
  rcases hab with hlt | ⟨heq, hv⟩
  · exact Or.inl ((cmpRat_lt_iff qb qa).mp hlt)
  · exact Or.inr ⟨((cmpRat_eq_iff qb qa).mp heq).symm, (cmpRat_ne_gt_iff vb va).mp hv⟩

/-- Witness for C3: a concrete three-record table sorted by the claim's
relation after `recommend`. -/
theorem C3_sorted_witness :
    List.Chain' (fun a b => ∃ qa va qb vb,
      a.rating = Cell.num qa ∧ a.votes = Cell.num va ∧
      b.rating = Cell.num qb ∧ b.votes = Cell.num vb ∧
      (qb < qa ∨ (qa = qb ∧ vb ≤ va)))
      (Df.mk true true true
        [Row.mk (Cell.str ['b']) (Cell.num 4) (Cell.num 1),
         Row.mk (Cell.str ['c']) (Cell.num 2) (Cell.num 9),
         Row.mk (Cell.str ['a']) (Cell.num 2) (Cell.num 5)]).rows := by
  have h := C3_sorted
    (Df.mk true true true
      [Row.mk (Cell.str ['a']) (Cell.num 2) (Cell.num 5),
       Row.mk (Cell.str ['b']) (Cell.num 4) (Cell.num 1),
       Row.mk (Cell.str ['c']) (Cell.num 2) (Cell.num 9)])
    (Prefs.mk none none)
    (Df.mk true true true
      [Row.mk (Cell.str ['b']) (Cell.num 4) (Cell.num 1),
       Row.mk (Cell.str ['c']) (Cell.num 2) (Cell.num 9),
       Row.mk (Cell.str ['a']) (Cell.num 2) (Cell.num 5)])
    (by
      intro row hr
      simp only [List.mem_cons, List.not_mem_nil, or_false] at hr
      rcases hr with rfl | rfl | rfl
      · exact ⟨⟨2, rfl⟩, ⟨5, rfl⟩⟩
      · exact ⟨⟨4, rfl⟩, ⟨1, rfl⟩⟩
      · exact ⟨⟨2, rfl⟩, ⟨9, rfl⟩⟩)
    rfl
  exact h

lemma sortStep_len {d r : Df} (h : sortStep d = Except.ok r) :
    r.rows.length = min 10 d.rows.length := by
  obtain ⟨_, _, _, hrows, _, _⟩ := sortStep_ok h
  rw [hrows, List.length_take, (sortRows_perm d.rows).length_eq]

/-- C4, counterexample: narrowing the requested cuisine set from
`{"\", "x"}` to its subset `{"x"}` increases the result size from 0 to 1:
joining with `"|"` turns the first set into the pattern `\|x`, where the
backslash escapes the bar, so it matches only the literal text `"|x"`.
(A further conjunct: narrowing to the empty set also increases the count,
because an empty set disables the filter.)  This refutes "replacing the
`cuisines` set of P with a subset of it never increases the number of
returned records". -/
theorem C4_counterexample :
    (∀ t ∈ [['x']], t ∈ [['\\'], ['x']]) ∧
    recommend (Df.mk true true true [Row.mk (Cell.str ['x']) (Cell.num 1) (Cell.num 1)])
        (Prefs.mk (some [['\\'], ['x']]) none) =
      Except.ok (Df.mk true true true []) ∧
    recommend (Df.mk true true true [Row.mk (Cell.str ['x']) (Cell.num 1) (Cell.num 1)])
        (Prefs.mk (some [['x']]) none) =
      Except.ok (Df.mk true true true [Row.mk (Cell.str ['x']) (Cell.num 1) (Cell.num 1)]) ∧
    recommend (Df.mk true true true [Row.mk (Cell.str ['x']) (Cell.num 1) (Cell.num 1)])
        (Prefs.mk (some []) none) =
      Except.ok (Df.mk true true true [Row.mk (Cell.str ['x']) (Cell.num 1) (Cell.num 1)]) :=
  ⟨by decide, rfl, rfl, rfl⟩

/-- C4 (amended): (i) every returned record is a record of the source
table; (ii) adding a `min_rating` constraint never increases the number
of returned records; (iii) replacing the `cuisines` set by a non-empty
subset never increases the number of returned records, provided the tags
involved carry no special regex meaning. -/
theorem C4_monotonicity :
    (∀ (df : Df) (p : Prefs) (res : Df), recommend df p = Except.ok res →
      ∀ row ∈ res.rows, row ∈ df.rows) ∧
    (∀ (df : Df) (cs : Option (List PyStr)) (m : Rat) (r1 r2 : Df),
      recommend df (Prefs.mk cs none) = Except.ok r1 →
      recommend df (Prefs.mk cs (some m)) = Except.ok r2 →
      r2.rows.length ≤ r1.rows.length) ∧
    (∀ (df : Df) (ts ts2 : List PyStr) (mr : Option Rat) (r1 r2 : Df),
      (∀ t ∈ ts, ∀ c ∈ pyLower t, litChar c = true) →
      (∀ t ∈ ts2, ∀ c ∈ pyLower t, litChar c = true) →
      (∀ t ∈ ts2, t ∈ ts) → ts2 ≠ [] →
      recommend df (Prefs.mk (some ts) mr) = Except.ok r1 →
      recommend df (Prefs.mk (some ts2) mr) = Except.ok r2 →
      r2.rows.length ≤ r1.rows.length) := by
  refine ⟨fun df p res h => recommend_subset h, ?_, ?_⟩
  · intro df cs m r1 r2 h1 h2
    obtain ⟨a1, a2, ha1, ha2, ha3⟩ := recommend_ok h1
    obtain ⟨b1, b2, hb1, hb2, hb3⟩ := recommend_ok h2
    have hcc : cuisineStep (Prefs.mk cs (some m)) df = cuisineStep (Prefs.mk cs none) df := rfl
    rw [hcc, ha1] at hb1
    simp only [Except.ok.injEq] at hb1
    subst hb1
    have ha2' : a2 = a1 := by
      rw [ratingStep_skip rfl] at ha2
      simp only [Except.ok.injEq] at ha2
      exact ha2.symm
    subst ha2'
    have hrows2 := ratingStep_rows hb2
    have hble : b2.rows.length ≤ a2.rows.length := by
      rw [hrows2]
      exact List.length_filter_le _ _
    rw [sortStep_len ha3, sortStep_len hb3]
    exact min_le_min (le_refl 10) hble
  · intro df ts ts2 mr r1 r2 hlit hlit2 hsub hne2 h1 h2
    rcases hts2 : ts2 with _ | ⟨t2, ts2r⟩
    · exact absurd hts2 hne2
    · subst hts2
      have hne : ts ≠ [] := by
        intro hnil
        subst hnil
        exact absurd (hsub t2 (by simp)) (List.not_mem_nil _)
      rcases hts : ts with _ | ⟨t, tsr⟩
      · exact absurd hts hne
      · subst hts
        obtain ⟨a1, a2, ha1, ha2, ha3⟩ := recommend_ok h1
        obtain ⟨b1, b2, hb1, hb2, hb3⟩ := recommend_ok h2
        have hcol : df.hasCuisines = true := cuisineStep_col rfl ha1
        obtain ⟨g1, hstep1, hsem1, hng1⟩ :=
          @cuisineStep_literal (Prefs.mk (some (t :: tsr)) mr) df (t :: tsr) rfl hne hlit hcol
        obtain ⟨g2, hstep2, hsem2, hng2⟩ :=
          @cuisineStep_literal (Prefs.mk (some (t2 :: ts2r)) mr) df (t2 :: ts2r) rfl (by simp) hlit2 hcol
        rw [hstep1] at ha1
        rw [hstep2] at hb1
        simp only [Except.ok.injEq] at ha1 hb1
        have hpt : ∀ row, g2 row = true → g1 row = true := by
          intro row hg
          cases hcr : row.cuisines with
          | str s =>
            obtain ⟨u, hu, hinf⟩ := (hsem2 row s hcr).mp hg
            exact (hsem1 row s hcr).mpr ⟨u, hsub u hu, hinf⟩
          | na =>
            rw [hng2 row (by intro s; rw [hcr]; simp)] at hg
            cases hg
          | num q =>
            rw [hng2 row (by intro s; rw [hcr]; simp)] at hg
            cases hg
          | inf b =>
            rw [hng2 row (by intro s; rw [hcr]; simp)] at hg
            cases hg
        have hsb1 : b1.rows.Sublist a1.rows := by
          rw [← ha1, ← hb1]
          exact List.monotone_filter_right df.rows hpt
        have hr2 := ratingStep_rows ha2
        have hr2b := ratingStep_rows hb2
        have hpred : ratingPred (Prefs.mk (some (t2 :: ts2r)) mr) =
            ratingPred (Prefs.mk (some (t :: tsr)) mr) := rfl
        have hsb2 : b2.rows.Sublist a2.rows := by
          rw [hr2, hr2b, hpred]
          exact List.Sublist.filter _ hsb1
        rw [sortStep_len ha3, sortStep_len hb3]
        exact min_le_min (le_refl 10) hsb2.length_le

/-- Witness for C4: concrete instances of all three monotonicity parts. -/
theorem C4_monotonicity_witness :
    Row.mk (Cell.str ['a']) (Cell.num 4) (Cell.num 7) ∈
      (Df.mk true true true [Row.mk (Cell.str ['a']) (Cell.num 4) (Cell.num 7)]).rows ∧
    (Df.mk true true true []).rows.length ≤
      (Df.mk true true true [Row.mk (Cell.str ['a']) (Cell.num 4) (Cell.num 7)]).rows.length ∧
    (Df.mk true true true [Row.mk (Cell.str ['a']) (Cell.num 4) (Cell.num 7)]).rows.length ≤
      (Df.mk true true true [Row.mk (Cell.str ['a']) (Cell.num 4) (Cell.num 7)]).rows.length := by
  refine ⟨?_, ?_, ?_⟩
  · exact C4_monotonicity.1
      (Df.mk true true true [Row.mk (Cell.str ['a']) (Cell.num 4) (Cell.num 7)])
      (Prefs.mk none none)
      (Df.mk true true true [Row.mk (Cell.str ['a']) (Cell.num 4) (Cell.num 7)])
      rfl
      (Row.mk (Cell.str ['a']) (Cell.num 4) (Cell.num 7)) (by simp)
  · exact C4_monotonicity.2.1
      (Df.mk true true true [Row.mk (Cell.str ['a']) (Cell.num 4) (Cell.num 7)])
      none 5
      (Df.mk true true true [Row.mk (Cell.str ['a']) (Cell.num 4) (Cell.num 7)])
      (Df.mk true true true [])
      rfl rfl
  · exact C4_monotonicity.2.2
      (Df.mk true true true [Row.mk (Cell.str ['a']) (Cell.num 4) (Cell.num 7)])
      [['a'], ['b']] [['a']] none
      (Df.mk true true true [Row.mk (Cell.str ['a']) (Cell.num 4) (Cell.num 7)])
      (Df.mk true true true [Row.mk (Cell.str ['a']) (Cell.num 4) (Cell.num 7)])
      (by decide) (by decide) (by decide) (by decide) rfl rfl

/-- C6: `load_data` never raises: it either returns a cleaned table with
no reported error, or the empty table with a reported error; a UTF-8
decode failure is retried with Latin-1; any other read failure, a failed
retry, or missing expected columns all degrade to the empty table plus a
reported error. -/
theorem C6_load_total :
    (∀ f : CsvFile, load_data f = (emptyDf, true) ∨ ∃ d, load_data f = (d, false)) ∧
    (∀ (f : CsvFile) (raw : Df), f.utf8 = ReadResult.unicodeErr →
      f.latin1 = ReadResult.ok raw → load_data f = afterRead (some raw)) ∧
    (∀ f : CsvFile, f.utf8 = ReadResult.otherErr → load_data f = (emptyDf, true)) ∧
    (∀ f : CsvFile, f.utf8 = ReadResult.unicodeErr →
      (∀ raw, f.latin1 ≠ ReadResult.ok raw) → load_data f = (emptyDf, true)) ∧
    (∀ (f : CsvFile) (raw : Df), f.utf8 = ReadResult.ok raw →
      (raw.hasCuisines && raw.hasRating) = false → load_data f = (emptyDf, true)) :=
  ⟨load_data_cases, load_data_retry, load_data_other_err, load_data_retry_err,
   load_data_schema_err⟩

/-- Witness for C6: concrete files exercising the Latin-1 retry, the
read-failure fallback, the failed-retry fallback and the missing-column
fallback. -/
theorem C6_load_total_witness :
    load_data (CsvFile.mk ReadResult.unicodeErr
        (ReadResult.ok (Df.mk true true true []))) =
      afterRead (some (Df.mk true true true [])) ∧
    load_data (CsvFile.mk ReadResult.otherErr ReadResult.otherErr) = (emptyDf, true) ∧
    load_data (CsvFile.mk ReadResult.unicodeErr ReadResult.unicodeErr) = (emptyDf, true) ∧
    load_data (CsvFile.mk (ReadResult.ok (Df.mk true false true [])) ReadResult.otherErr) =
      (emptyDf, true) := by
  refine ⟨?_, ?_, ?_, ?_⟩
  · exact C6_load_total.2.1 _ (Df.mk true true true []) rfl rfl
  · exact C6_load_total.2.2.1 _ rfl
  · exact C6_load_total.2.2.2.1 _ rfl (by intro raw h; cases h)
  · exact C6_load_total.2.2.2.2 _ (Df.mk true false true []) rfl rfl

/-- C7: `recommend` returns at most 10 records; the returned count is
`min 10` of the number of filter survivors, so when fewer than 10 records
survive, all of them (as a permutation, before ordering) are returned,
and zero survivors yield an empty table. -/
theorem C7_bounded (df : Df) (p : Prefs) (res : Df) (h : recommend df p = Except.ok res) :
    res.rows.length ≤ 10 ∧
    ∃ mid, (cuisineStep p df).bind (fun r => ratingStep p r) = Except.ok mid ∧
      res.rows.length = min 10 mid.rows.length ∧
      (mid.rows.length ≤ 10 → res.rows.Perm mid.rows) ∧
      (mid.rows = [] → res.rows = []) := by
  obtain ⟨mid, hb, hlen, hperm⟩ := recommend_length h
  refine ⟨?_, mid, hb, hlen, hperm, ?_⟩
  · rw [hlen]
    exact min_le_left _ _
  · intro hnil
    have hz : res.rows.length = 0 := by
      rw [hlen, hnil]
      simp
    exact List.length_eq_zero.mp hz

/-- Witness for C7: a twelve-record table yields exactly 10 records. -/
theorem C7_bounded_witness :
    ((Df.mk true true true (List.replicate 10 (Row.mk (Cell.str ['a'])
      (Cell.num 3) (Cell.num 1)))).rows.length ≤ 10) := by
  have h := C7_bounded
    (Df.mk true true true (List.replicate 12 (Row.mk (Cell.str ['a'])
      (Cell.num 3) (Cell.num 1))))
    (Prefs.mk none none)
    (Df.mk true true true (List.replicate 10 (Row.mk (Cell.str ['a'])
      (Cell.num 3) (Cell.num 1))))
    (by rfl)
  exact h.1

/-- C8: `recommend` leaves the recommender's state (the loaded table)
unchanged — the method only reads `self.df`, copies it, and every pandas
operation used builds a new frame — and the returned table is derived
from the source: each returned record is a record of the source table. -/
theorem C8_immutable (s : RestaurantRecommender) (p : Prefs) :
    (s.recommendM p).1 = s ∧
    ∀ res, (s.recommendM p).2 = Except.ok res → ∀ row ∈ res.rows, row ∈ s.df.rows := by
  refine ⟨rfl, ?_⟩
  intro res h
  exact recommend_subset h

/-- Witness for C8: concrete state preservation and result derivation. -/
theorem C8_immutable_witness :
    (RestaurantRecommender.recommendM
      (RestaurantRecommender.mk
        (Df.mk true true true [Row.mk (Cell.str ['a']) (Cell.num 4) (Cell.num 7)]))
      (Prefs.mk none none)).1 =
      RestaurantRecommender.mk
        (Df.mk true true true [Row.mk (Cell.str ['a']) (Cell.num 4) (Cell.num 7)]) ∧
    Row.mk (Cell.str ['a']) (Cell.num 4) (Cell.num 7) ∈
      (RestaurantRecommender.mk
        (Df.mk true true true [Row.mk (Cell.str ['a']) (Cell.num 4) (Cell.num 7)])).df.rows := by
  refine ⟨(C8_immutable _ (Prefs.mk none none)).1, ?_⟩
  exact (C8_immutable
      (RestaurantRecommender.mk
        (Df.mk true true true [Row.mk (Cell.str ['a']) (Cell.num 4) (Cell.num 7)]))
      (Prefs.mk none none)).2
    (Df.mk true true true [Row.mk (Cell.str ['a']) (Cell.num 4) (Cell.num 7)])
    rfl
    (Row.mk (Cell.str ['a']) (Cell.num 4) (Cell.num 7))
    (by simp)

/-- C9: providing `min_rating = 0` behaves exactly like omitting the key
(`preferences.get('min_rating')` is falsy for 0): `recommend` returns the
same result, and the rating filter is a no-op, so records with negative
ratings are not excluded. -/
theorem C9_zero_min_rating (df : Df) (cs : Option (List PyStr)) :
    recommend df (Prefs.mk cs (some 0)) = recommend df (Prefs.mk cs none) ∧
    ratingStep (Prefs.mk cs (some 0)) df = Except.ok df := by
  constructor
  · unfold recommend
    have hc : cuisineStep (Prefs.mk cs (some 0)) df = cuisineStep (Prefs.mk cs none) df := rfl
    rw [hc]
    refine congrArg (Except.bind _) (funext fun r1 => ?_)
    rw [ratingStep_zero rfl, ratingStep_skip rfl]
  · exact ratingStep_zero rfl

